import Mathlib

/-!
Verification of the AnyDisplay rasterization and compositing core
(`anydisplay/__init__.py`) over a shallow embedding in Lean.

Python floats are modelled by rationals; the physical pixel buffer
(a `width x height x 4` array of `r, g, b, coverage` values) is modelled
by a total function from integer coordinates to pixel states, and calls
to the underlying display (the "Pixel Sink") are collected in a trace list.
-/

/-- One entry of the per-physical-pixel state buffer: the RGB value of the
display pixel and what fraction of it has been painted
(`self._canvas[px][py]` holding `[pr, pg, pb, pf]`). -/
structure Pix where
  r : ℚ
  g : ℚ
  b : ℚ
  f : ℚ
deriving DecidableEq

/-- The zero-initialised pixel state (`numpy.zeros`). -/
def Pix.zero : Pix := ⟨0, 0, 0, 0⟩

/-- Channel clamping as in `Canvas.set`:
`r if 0 <= r <= 1 else min(max(0.0, r), 1.0)`. -/
def clampChan (v : ℚ) : ℚ := if 0 ≤ v ∧ v ≤ 1 then v else min (max 0 v) 1

/-- The store-time clamp applied when writing back into the buffer:
`pr if pr < 1.0 else 1.0`. -/
def storeClamp (v : ℚ) : ℚ := if v < 1 then v else 1

/-- Result of compositing one draw onto one buffer pixel: the new stored
pixel state, and the (pre-store-clamp) colour pushed to the display via
`self._display.set(px, py, pr, pg, pb)`. -/
structure BlendOut where
  pix : Pix
  sr : ℚ
  sg : ℚ
  sb : ℚ
deriving DecidableEq

/-- The compositing rule of `Canvas.set` (the shared inner-loop body):
given the stored pixel `(pr, pg, pb, pf)`, a blending factor and the
clamped draw colour, either accumulate over black (`pf == 0.0 or
pf <= factor1`) or renormalise the stored colour and saturate coverage. -/
def blend (p : Pix) (factor dr dg db : ℚ) : BlendOut :=
  let factor1 := 1 - factor
  if p.f = 0 ∨ p.f ≤ factor1 then
    let pr := p.r + factor * dr
    let pg := p.g + factor * dg
    let pb := p.b + factor * db
    let pf := factor + p.f
    ⟨⟨storeClamp pr, storeClamp pg, storeClamp pb, storeClamp pf⟩, pr, pg, pb⟩
  else
    let pfactor1 := factor1 / p.f
    let pr := min (pfactor1 * p.r + factor * dr) 1
    let pg := min (pfactor1 * p.g + factor * dg) 1
    let pb := min (pfactor1 * p.b + factor * db) 1
    ⟨⟨storeClamp pr, storeClamp pg, storeClamp pb, storeClamp 1⟩, pr, pg, pb⟩

/-- One `Display.set(x, y, r, g, b)` call forwarded to the Pixel Sink. -/
structure SinkCall where
  x : ℤ
  y : ℤ
  r : ℚ
  g : ℚ
  b : ℚ
deriving DecidableEq

/-- The per-physical-pixel state buffer (`self._canvas`). -/
abbrev Buf := ℤ → ℤ → Pix

/-- In-place mutation of one buffer entry (`canvas[px][py] = ...`). -/
def updateBuf (b : Buf) (x y : ℤ) (p : Pix) : Buf :=
  fun i j => if i = x ∧ j = y then p else b i j

/-- Python `int()` on a float: truncation toward zero. -/
def truncQ (q : ℚ) : ℤ := if q < 0 then -⌊-q⌋ else ⌊q⌋

/-- Python `range(a, b)` over integers. -/
def irange (a b : ℤ) : List ℤ := (List.range (b - a).toNat).map (fun i => a + (i : ℤ))

/-- The wrap-or-clip step of `Canvas.set`'s inner loop: an out-of-bounds
coordinate is shifted by one grid dimension when the wrap flag is set and
dropped (`continue`) otherwise. -/
def wrapCoord (wrap : Bool) (n : ℤ) (v : ℤ) : Option ℤ :=
  if v < 0 ∨ n ≤ v then
    if wrap then (if v < 0 then some (v + n) else some (v - n)) else none
  else some v

/-- The `Canvas` state: the bound display's physical shape, the
logical-to-physical scale, the wrap flags and the pixel state buffer. -/
structure Canvas where
  W : ℤ
  H : ℤ
  scale : ℚ
  xwrap : Bool
  ywrap : Bool
  buf : Buf

/-- The body of the general-footprint double loop of `Canvas.set` for one
candidate cell `(px_, py_)`: clip the footprint against the cell to get the
area/factor, skip non-positive factors, clamp the factor to 1, wrap or clip
the coordinates, then blend into the buffer and push to the display. -/
def setCell (c : Canvas) (dxl dxr dyt dyb dr dg db : ℚ)
    (st : Buf × List SinkCall) (cell : ℤ × ℤ) : Buf × List SinkCall :=
  let cxl := max dxl (cell.1 : ℚ)
  let cxr := min dxr ((cell.1 : ℚ) + 1)
  let cyt := max dyt (cell.2 : ℚ)
  let cyb := min dyb ((cell.2 : ℚ) + 1)
  let factor := |cxr - cxl| * |cyb - cyt|
  if factor ≤ 0 then st
  else
    let factor := if 1 < factor then 1 else factor
    match wrapCoord c.xwrap c.W cell.1 with
    | none => st
    | some px =>
      match wrapCoord c.ywrap c.H cell.2 with
      | none => st
      | some py =>
        let o := blend (st.1 px py) factor dr dg db
        (updateBuf st.1 px py o.pix, st.2 ++ [⟨px, py, o.sr, o.sg, o.sb⟩])

/-- `Canvas.set(x, y, r, g, b, s)`: returns the new buffer contents and the
ordered trace of `set` calls issued to the Pixel Sink. The three regimes of
the source are kept: the exact-single-pixel fast path, the sub-pixel fast
path, and the general footprint double loop. -/
def Canvas.set (c : Canvas) (x y r g b s : ℚ) : Buf × List SinkCall :=
  let scale := s * c.scale
  if scale ≤ 0 then (c.buf, [])
  else
    let dx := x * c.scale
    let dy := y * c.scale
    let dr := clampChan r
    let dg := clampChan g
    let db := clampChan b
    if scale = 1 ∧ (truncQ dx : ℚ) = dx ∧ (truncQ dy : ℚ) = dy ∧
        0 ≤ dx ∧ dx < (c.W : ℚ) ∧ 0 ≤ dy ∧ dy < (c.H : ℚ) then
      let ix := truncQ dx
      let iy := truncQ dy
      (updateBuf c.buf ix iy ⟨dr, dg, db, 1⟩, [⟨ix, iy, dr, dg, db⟩])
    else if scale < 1 ∧ 0 ≤ dx ∧ dx < (c.W : ℚ) ∧ 0 ≤ dy ∧ dy < (c.H : ℚ) then
      let px := truncQ dx
      let py := truncQ dy
      let factor := scale ^ 2
      let o := blend (c.buf px py) factor dr dg db
      (updateBuf c.buf px py o.pix, [⟨px, py, o.sr, o.sg, o.sb⟩])
    else
      let half := max 0 ((scale - 1) / 2)
      let offs : ℚ × ℚ :=
        if truncQ scale % 2 = 1 then
          ((truncQ half : ℚ), scale - (truncQ half : ℚ))
        else
          (scale - (truncQ half : ℚ), (truncQ half : ℚ))
      let dxl := dx - offs.1
      let dxr := dx + offs.2
      let dyt := dy - offs.1
      let dyb := dy + offs.2
      let cells := (irange (truncQ dxl) (truncQ dxr + 1)).flatMap
        (fun px => (irange (truncQ dyt) (truncQ dyb + 1)).map (fun py => (px, py)))
      cells.foldl (setCell c dxl dxr dyt dyb dr dg db) (c.buf, [])

/-- A 2D source image for `Canvas.set_image`: its size and its
`getpixel` function returning raw 0..255 channel values. -/
structure Image where
  w : ℤ
  h : ℤ
  pix : ℤ → ℤ → ℚ × ℚ × ℚ

/-- Python 3 `round()`: round half to even. -/
def pyRound (q : ℚ) : ℤ :=
  if Int.fract q = 1/2 then (if ⌊q⌋ % 2 = 0 then ⌊q⌋ else ⌊q⌋ + 1) else round q

/-- `Canvas.set_image(image)`: raises on non-positive image dimensions
before processing any pixel, otherwise walks the source pixels in
row-major order and draws each one through `Canvas.set`. -/
def Canvas.setImage (c : Canvas) (img : Image) : Except String (Buf × List SinkCall) :=
  if img.w ≤ 0 ∨ img.h ≤ 0 then
    .error "Bad image dimensions"
  else
    let sw : ℚ := (c.W : ℚ) / (img.w : ℚ)
    let sh : ℚ := (c.H : ℚ) / (img.h : ℚ)
    let sz0 := max sw sh
    let sz : ℚ := if 1 < sz0 then (⌈sz0⌉ : ℚ) else sz0
    .ok <| (irange 0 img.w).foldl (fun st (ix : ℤ) =>
      (irange 0 img.h).foldl (fun st (iy : ℤ) =>
        let dx := pyRound ((ix : ℚ) * sw)
        let dy := pyRound ((iy : ℚ) * sh)
        let rgb := img.pix ix iy
        let o := Canvas.set { c with buf := st.1 } (dx : ℚ) (dy : ℚ)
          (rgb.1 / 255) (rgb.2.1 / 255) (rgb.2.2 / 255) sz
        (o.1, st.2 ++ o.2)) st) (c.buf, [])

/-- One call in a sequence of Canvas operations. -/
inductive Op where
  | clear : Op
  | set (x y r g b s : ℚ) : Op
  | setImage (img : Image) : Op

/-- Apply one operation to a Canvas, yielding the new Canvas and the trace
of Pixel Sink `set` calls it issued. A `set_image` call with bad
dimensions raises, leaving the buffer untouched and the trace empty. -/
def Canvas.step (c : Canvas) : Op → Canvas × List SinkCall
  | .clear => ({ c with buf := fun _ _ => Pix.zero }, [])
  | .set x y r g b s =>
      let o := c.set x y r g b s
      ({ c with buf := o.1 }, o.2)
  | .setImage img =>
      match c.setImage img with
      | .error _ => (c, [])
      | .ok o => ({ c with buf := o.1 }, o.2)

/-- Apply a sequence of operations, concatenating the Sink call traces. -/
def Canvas.run (c : Canvas) : List Op → Canvas × List SinkCall
  | [] => (c, [])
  | op :: ops =>
      let o := c.step op
      let rest := Canvas.run o.1 ops
      (rest.1, o.2 ++ rest.2)

/-- `Display.set_orientation` of the abstract base class: reject any value
outside `{0, 90, 180, 270}` before assigning `self._orientation`. The
result is the stored orientation after the call when no error is raised. -/
def Display.setOrien (_cur o : ℤ) : Except String ℤ :=
  if o = 0 ∨ o = 90 ∨ o = 180 ∨ o = 270 then .ok o
  else .error "Bad orientation"

/-- `NullDisplay.set_orientation`: the override is `pass`. -/
def NullDisplay.setOrien (cur o : ℤ) : Except String ℤ := .ok cur

/-- `NullDisplay.__init__`: the stored shape is `(max(1, w), max(1, h))`;
no check is made and no error can be raised. -/
def NullDisplay.init (w h : ℤ) : Except String (ℤ × ℤ) := .ok (max 1 w, max 1 h)

/-- `Canvas.__init__` over a display of shape `(dW, dH)` with optional
logical width/height (defaulting to the display's). -/
def Canvas.init (dW dH : ℤ) (width height : Option ℤ) (xwrap ywrap : Bool) :
    Except String Canvas :=
  let w := width.getD dW
  let h := height.getD dH
  if w ≤ 0 then .error "Bad width"
  else if h ≤ 0 then .error "Bad height"
  else .ok ⟨dW, dH, min ((dW : ℚ) / (w : ℚ)) ((dH : ℚ) / (h : ℚ)), xwrap, ywrap,
    fun _ _ => Pix.zero⟩

/-- Whether an `Except` result is an error. -/
def isErr {α : Type} : Except String α → Bool
  | .error _ => true
  | .ok _ => false

/-- The state invariant of one buffer entry: all four components lie in
`[0, 1]` and each colour channel is bounded by the coverage (so coverage 0
forces a black pixel). -/
def Pix.Inv (p : Pix) : Prop :=
  0 ≤ p.r ∧ 0 ≤ p.g ∧ 0 ≤ p.b ∧ 0 ≤ p.f ∧
    p.r ≤ p.f ∧ p.g ≤ p.f ∧ p.b ≤ p.f ∧ p.f ≤ 1

/-- Every entry of the buffer satisfies the pixel invariant. -/
def BufInv (b : Buf) : Prop := ∀ px py, (b px py).Inv

/-- The colour forwarded to the Pixel Sink by one `set` call lies in
`[0, 1]` on every channel. -/
def CallInv (k : SinkCall) : Prop :=
  0 ≤ k.r ∧ k.r ≤ 1 ∧ 0 ≤ k.g ∧ k.g ≤ 1 ∧ 0 ≤ k.b ∧ k.b ≤ 1

/-- Combined invariant on a buffer/trace accumulator pair. -/
def StInv (st : Buf × List SinkCall) : Prop :=
  BufInv st.1 ∧ ∀ k ∈ st.2, CallInv k

/-! ## Basic lemmas about the clamps and the compositing rule -/

theorem clampChan_nonneg (v : ℚ) : 0 ≤ clampChan v := by
  unfold clampChan; split_ifs with h
  · exact h.1
  · exact le_min (le_max_left 0 v) zero_le_one

theorem clampChan_le_one (v : ℚ) : clampChan v ≤ 1 := by
  unfold clampChan; split_ifs with h
  · exact h.2
  · exact min_le_right _ _

theorem clampChan_of_mem (v : ℚ) (h0 : 0 ≤ v) (h1 : v ≤ 1) : clampChan v = v := by
  unfold clampChan; exact if_pos ⟨h0, h1⟩

theorem storeClamp_of_le (v : ℚ) (h : v ≤ 1) : storeClamp v = v := by
  unfold storeClamp; split_ifs with h'
  · rfl
  · linarith

/-- The compositing rule at blending factor 1 fully overwrites any pixel
whose coverage is nonnegative and whose colour is black wherever coverage
is zero: the result is exactly the clamped draw colour at full coverage,
and the same colour is forwarded to the display. -/
theorem blend_factor_one (p : Pix) (dr dg db : ℚ) (hf : 0 ≤ p.f)
    (hz : p.f = 0 → p.r = 0 ∧ p.g = 0 ∧ p.b = 0)
    (hr0 : 0 ≤ dr) (hr1 : dr ≤ 1) (hg0 : 0 ≤ dg) (hg1 : dg ≤ 1)
    (hb0 : 0 ≤ db) (hb1 : db ≤ 1) :
    blend p 1 dr dg db = ⟨⟨dr, dg, db, 1⟩, dr, dg, db⟩ := by
  unfold blend
  rcases eq_or_lt_of_le hf with h0 | hpos
  · obtain ⟨hr, hg, hb⟩ := hz h0.symm
    rw [if_pos (Or.inl h0.symm)]
    simp only [hr, hg, hb, ← h0, one_mul, add_zero, zero_add]
    rw [storeClamp_of_le _ hr1, storeClamp_of_le _ hg1, storeClamp_of_le _ hb1,
      storeClamp_of_le _ le_rfl]
  · rw [if_neg]
    · have hpne : p.f ≠ 0 := ne_of_gt hpos
      simp only [sub_self, zero_div, zero_mul, zero_add, one_mul]
      rw [min_eq_left hr1, min_eq_left hg1, min_eq_left hb1,
        storeClamp_of_le _ hr1, storeClamp_of_le _ hg1, storeClamp_of_le _ hb1,
        storeClamp_of_le _ le_rfl]
    · push_neg
      constructor
      · exact ne_of_gt hpos
      · simpa using hpos

/-! ## Claim theorems: error handling and no-op contracts -/

/-- C6: whenever the effective footprint side length `s * scale` is
non-positive, `Canvas.set` leaves every buffer entry unchanged and issues
no Pixel Sink call. -/
theorem claim_C6 (c : Canvas) (x y r g b s : ℚ) (h : s * c.scale ≤ 0) :
    c.set x y r g b s = (c.buf, []) := by
  unfold Canvas.set
  exact if_pos h

theorem claim_C6_witness :
    (0 : ℚ) * (1 : ℚ) ≤ 0 ∧
      Canvas.set ⟨4, 4, 1, false, false, fun _ _ => Pix.zero⟩ 2 2 1 1 1 0 =
        ((fun _ _ => Pix.zero : Buf), []) :=
  ⟨by norm_num,
    claim_C6 ⟨4, 4, 1, false, false, fun _ _ => Pix.zero⟩ 2 2 1 1 1 0 (by norm_num)⟩

/-- C7: `Canvas.set_image` raises an invalid-dimensions error for any image
with non-positive width or height, before any pixel is processed (the
buffer is untouched and no Sink call is made), and raises no such error
for positive dimensions. -/
theorem claim_C7 (c : Canvas) (img : Image) :
    ((img.w ≤ 0 ∨ img.h ≤ 0) →
      c.setImage img = .error "Bad image dimensions" ∧
        c.step (.setImage img) = (c, [])) ∧
    (0 < img.w → 0 < img.h → ∃ out, c.setImage img = .ok out) := by
  constructor
  · intro h
    have herr : c.setImage img = .error "Bad image dimensions" := by
      unfold Canvas.setImage
      exact if_pos h
    refine ⟨herr, ?_⟩
    simp only [Canvas.step, herr]
  · intro hw hh
    unfold Canvas.setImage
    rw [if_neg (by push_neg; exact ⟨hw, hh⟩)]
    exact ⟨_, rfl⟩

theorem claim_C7_witness :
    Canvas.setImage ⟨4, 4, 1, false, false, fun _ _ => Pix.zero⟩
        ⟨0, 5, fun _ _ => (0, 0, 0)⟩ = .error "Bad image dimensions" ∧
      Canvas.step ⟨4, 4, 1, false, false, fun _ _ => Pix.zero⟩
        (.setImage ⟨0, 5, fun _ _ => (0, 0, 0)⟩) =
        (⟨4, 4, 1, false, false, fun _ _ => Pix.zero⟩, []) :=
  (claim_C7 ⟨4, 4, 1, false, false, fun _ _ => Pix.zero⟩
    ⟨0, 5, fun _ _ => (0, 0, 0)⟩).1 (Or.inl (by norm_num))

/-- C8 counterexample: the Null Sink's orientation setter is a `pass`
override, so setting an invalid orientation (45) raises no error, and
setting a valid orientation (90) does not make the stored orientation 90. -/
theorem claim_C8_cex :
    isErr (NullDisplay.setOrien 0 45) = false ∧
      NullDisplay.setOrien 0 90 ≠ Except.ok 90 := by
  constructor
  · rfl
  · intro h
    have : (0 : ℤ) = 90 := by
      simpa [NullDisplay.setOrien] using h
    norm_num at this

/-- C8 (amended): the base Display orientation setter accepts exactly
{0, 90, 180, 270}, storing the new value, and raises an
invalid-configuration error (leaving the stored orientation unchanged)
otherwise; the Null Sink's overriding setter is a no-op that never raises
and never changes the stored orientation. -/
theorem claim_C8 :
    (∀ cur o : ℤ,
      ((o = 0 ∨ o = 90 ∨ o = 180 ∨ o = 270) → Display.setOrien cur o = .ok o) ∧
      (¬(o = 0 ∨ o = 90 ∨ o = 180 ∨ o = 270) →
        Display.setOrien cur o = .error "Bad orientation")) ∧
    (∀ cur o : ℤ, NullDisplay.setOrien cur o = .ok cur) := by
  refine ⟨fun cur o => ⟨fun h => ?_, fun h => ?_⟩, fun cur o => rfl⟩
  · unfold Display.setOrien; exact if_pos h
  · unfold Display.setOrien; exact if_neg h

theorem claim_C8_witness :
    Display.setOrien 0 45 = .error "Bad orientation" ∧
      Display.setOrien 0 270 = .ok 270 ∧
      NullDisplay.setOrien 3 90 = .ok 3 :=
  ⟨(claim_C8.1 0 45).2 (by norm_num),
    ((claim_C8.1 0 270).1 (by norm_num)),
    claim_C8.2 3 90⟩

/-- C9 counterexample: constructing the Null Sink with width 0 does not
raise; it clamps the shape to (1, 5). -/
theorem claim_C9_cex : NullDisplay.init 0 5 = Except.ok (1, 5) := by
  norm_num [NullDisplay.init]

/-- C9 (amended): Null Sink construction never raises — it clamps each
non-positive dimension up to 1, so the reported shape is always positive —
while Canvas construction with a non-positive logical width or height
raises an error and produces no Canvas. -/
theorem claim_C9 :
    (∀ w h : ℤ, ∃ p : ℤ × ℤ,
      NullDisplay.init w h = .ok p ∧ 0 < p.1 ∧ 0 < p.2) ∧
    (∀ (dW dH w h : ℤ) (xw yw : Bool), (w ≤ 0 ∨ h ≤ 0) →
      isErr (Canvas.init dW dH (some w) (some h) xw yw) = true) := by
  constructor
  · intro w h
    refine ⟨(max 1 w, max 1 h), rfl, ?_, ?_⟩
    · exact lt_of_lt_of_le one_pos (le_max_left 1 w)
    · exact lt_of_lt_of_le one_pos (le_max_left 1 h)
  · intro dW dH w h xw yw hwh
    unfold Canvas.init
    simp only [Option.getD_some]
    rcases hwh with hw | hh
    · rw [if_pos hw]; rfl
    · split_ifs with hw'
      · rfl
      · rfl

theorem claim_C9_witness :
    isErr (Canvas.init 4 4 (some 0) (some 4) false false) = true ∧
      ∃ p : ℤ × ℤ, NullDisplay.init (-3) 7 = .ok p ∧ 0 < p.1 ∧ 0 < p.2 :=
  ⟨claim_C9.2 4 4 0 4 false false (Or.inl le_rfl), claim_C9.1 (-3) 7⟩

/-! ## Claim theorems: the compositing rule -/

/-- Evaluation of the accumulate-over-black branch of the compositing
rule. -/
theorem blend_accum (pr pg pb pf factor dr dg db : ℚ)
    (hcond : pf = 0 ∨ pf ≤ 1 - factor) :
    blend ⟨pr, pg, pb, pf⟩ factor dr dg db =
      ⟨⟨storeClamp (pr + factor * dr), storeClamp (pg + factor * dg),
        storeClamp (pb + factor * db), storeClamp (factor + pf)⟩,
        pr + factor * dr, pg + factor * dg, pb + factor * db⟩ := by
  simp only [blend]
  rw [if_pos hcond]

/-- Evaluation of the renormalise-and-saturate branch of the compositing
rule. -/
theorem blend_renorm (pr pg pb pf factor dr dg db : ℚ)
    (hcond : ¬(pf = 0 ∨ pf ≤ 1 - factor)) :
    blend ⟨pr, pg, pb, pf⟩ factor dr dg db =
      ⟨⟨storeClamp (min ((1 - factor) / pf * pr + factor * dr) 1),
        storeClamp (min ((1 - factor) / pf * pg + factor * dg) 1),
        storeClamp (min ((1 - factor) / pf * pb + factor * db) 1),
        storeClamp 1⟩,
        min ((1 - factor) / pf * pr + factor * dr) 1,
        min ((1 - factor) / pf * pg + factor * dg) 1,
        min ((1 - factor) / pf * pb + factor * db) 1⟩ := by
  simp only [blend]
  rw [if_neg hcond]

/-- C2 counterexample: on the (unreachable) prior state with coverage 0
but red channel 1, a factor-1 draw of black does not overwrite the pixel
with black: the accumulate branch adds the stale red back in. -/
theorem claim_C2_cex : (blend ⟨1, 0, 0, 0⟩ 1 0 0 0).pix ≠ ⟨0, 0, 0, 1⟩ := by
  norm_num [blend, storeClamp, Pix.mk.injEq]

/-- C2 (amended): for every prior pixel state whose coverage is
nonnegative and whose colour channels are all 0 whenever its coverage is 0
(true of every state the buffer can hold), one application of the
compositing rule with blending factor exactly 1 and clamped draw colour
leaves the pixel with coverage exactly 1 and colour exactly the draw
colour, regardless of the prior state. -/
theorem claim_C2 (p : Pix) (dr dg db : ℚ) (hf : 0 ≤ p.f)
    (hz : p.f = 0 → p.r = 0 ∧ p.g = 0 ∧ p.b = 0)
    (hr0 : 0 ≤ dr) (hr1 : dr ≤ 1) (hg0 : 0 ≤ dg) (hg1 : dg ≤ 1)
    (hb0 : 0 ≤ db) (hb1 : db ≤ 1) :
    (blend p 1 dr dg db).pix = ⟨dr, dg, db, 1⟩ := by
  rw [blend_factor_one p dr dg db hf hz hr0 hr1 hg0 hg1 hb0 hb1]

theorem claim_C2_witness :
    (blend ⟨1/4, 0, 1/2, 1/2⟩ 1 (1/2) 1 0).pix = ⟨1/2, 1, 0, 1⟩ :=
  claim_C2 ⟨1/4, 0, 1/2, 1/2⟩ (1/2) 1 0 (by norm_num)
    (fun h => absurd h (by norm_num)) (by norm_num) (by norm_num) (by norm_num)
    (by norm_num) (by norm_num) (by norm_num)

/-- C3: from an empty pixel, two successive draws with factors
`f1, f2 > 0`, `f1 + f2 ≤ 1` and clamped colours compose additively over
black: coverage becomes exactly `f1 + f2` and each channel exactly
`f1 * c1 + f2 * c2`. -/
theorem claim_C3 (f1 f2 r1 g1 b1 r2 g2 b2 : ℚ)
    (hf1 : 0 < f1) (hf2 : 0 < f2) (hsum : f1 + f2 ≤ 1)
    (hr10 : 0 ≤ r1) (hr11 : r1 ≤ 1) (hg10 : 0 ≤ g1) (hg11 : g1 ≤ 1)
    (hb10 : 0 ≤ b1) (hb11 : b1 ≤ 1)
    (hr20 : 0 ≤ r2) (hr21 : r2 ≤ 1) (hg20 : 0 ≤ g2) (hg21 : g2 ≤ 1)
    (hb20 : 0 ≤ b2) (hb21 : b2 ≤ 1) :
    (blend (blend Pix.zero f1 r1 g1 b1).pix f2 r2 g2 b2).pix =
      ⟨f1 * r1 + f2 * r2, f1 * g1 + f2 * g2, f1 * b1 + f2 * b2, f1 + f2⟩ := by
  have hf1le : f1 ≤ 1 := by linarith
  have e1 : blend Pix.zero f1 r1 g1 b1 =
      ⟨⟨f1 * r1, f1 * g1, f1 * b1, f1⟩, f1 * r1, f1 * g1, f1 * b1⟩ := by
    rw [show Pix.zero = (⟨0, 0, 0, 0⟩ : Pix) from rfl,
      blend_accum 0 0 0 0 f1 r1 g1 b1 (Or.inl rfl)]
    simp only [zero_add, add_zero]
    rw [storeClamp_of_le _ (by nlinarith), storeClamp_of_le _ (by nlinarith),
      storeClamp_of_le _ (by nlinarith), storeClamp_of_le _ hf1le]
  have e2 : blend (⟨f1 * r1, f1 * g1, f1 * b1, f1⟩ : Pix) f2 r2 g2 b2 =
      ⟨⟨f1 * r1 + f2 * r2, f1 * g1 + f2 * g2, f1 * b1 + f2 * b2, f2 + f1⟩,
        f1 * r1 + f2 * r2, f1 * g1 + f2 * g2, f1 * b1 + f2 * b2⟩ := by
    rw [blend_accum _ _ _ _ f2 r2 g2 b2 (Or.inr (by linarith))]
    rw [storeClamp_of_le _ (by nlinarith), storeClamp_of_le _ (by nlinarith),
      storeClamp_of_le _ (by nlinarith), storeClamp_of_le _ (by linarith)]
  calc (blend (blend Pix.zero f1 r1 g1 b1).pix f2 r2 g2 b2).pix
      = (blend (⟨f1 * r1, f1 * g1, f1 * b1, f1⟩ : Pix) f2 r2 g2 b2).pix := by
        rw [e1]
    _ = ⟨f1 * r1 + f2 * r2, f1 * g1 + f2 * g2, f1 * b1 + f2 * b2, f2 + f1⟩ := by
        rw [e2]
    _ = ⟨f1 * r1 + f2 * r2, f1 * g1 + f2 * g2, f1 * b1 + f2 * b2, f1 + f2⟩ := by
        rw [add_comm f2 f1]

theorem claim_C3_witness :
    (blend (blend Pix.zero (1/4) 1 0 (1/2)).pix (1/2) 0 1 (1/2)).pix =
      ⟨1/4 * 1 + 1/2 * 0, 1/4 * 0 + 1/2 * 1, 1/4 * (1/2) + 1/2 * (1/2), 1/4 + 1/2⟩ :=
  claim_C3 (1/4) (1/2) 1 0 (1/2) 0 1 (1/2) (by norm_num) (by norm_num)
    (by norm_num) (by norm_num) (by norm_num) (by norm_num) (by norm_num)
    (by norm_num) (by norm_num) (by norm_num) (by norm_num) (by norm_num)
    (by norm_num) (by norm_num) (by norm_num)

/-! ## Preservation of the buffer invariant -/

theorem pix_zero_inv : Pix.zero.Inv := by
  refine ⟨le_rfl, le_rfl, le_rfl, le_rfl, le_rfl, le_rfl, le_rfl, zero_le_one⟩

/-- The compositing rule preserves the pixel invariant for any blending
factor in `(0, 1]` and clamped draw colour, and the colour it forwards to
the display lies in `[0, 1]` on every channel. -/
theorem blend_inv (p : Pix) (factor dr dg db : ℚ) (hp : p.Inv)
    (hf0 : 0 < factor) (hf1 : factor ≤ 1)
    (hdr : 0 ≤ dr ∧ dr ≤ 1) (hdg : 0 ≤ dg ∧ dg ≤ 1) (hdb : 0 ≤ db ∧ db ≤ 1) :
    (blend p factor dr dg db).pix.Inv ∧
      CallInv ⟨0, 0, (blend p factor dr dg db).sr, (blend p factor dr dg db).sg,
        (blend p factor dr dg db).sb⟩ := by
  obtain ⟨pr, pg, pb, pf⟩ := p
  simp only [Pix.Inv] at hp
  obtain ⟨h1, h2, h3, h4, h5, h6, h7, h8⟩ := hp
  by_cases hcond : pf = 0 ∨ pf ≤ 1 - factor
  · rw [blend_accum _ _ _ _ _ _ _ _ hcond]
    simp only [Pix.Inv, CallInv]
    have hpf1 : factor + pf ≤ 1 := by
      rcases hcond with h | h
      · rw [h]; linarith
      · linarith
    have hrle : pr + factor * dr ≤ factor + pf := by nlinarith
    have hgle : pg + factor * dg ≤ factor + pf := by nlinarith
    have hble : pb + factor * db ≤ factor + pf := by nlinarith
    have hr0 : 0 ≤ pr + factor * dr := by nlinarith
    have hg0 : 0 ≤ pg + factor * dg := by nlinarith
    have hb0 : 0 ≤ pb + factor * db := by nlinarith
    rw [storeClamp_of_le _ (le_trans hrle hpf1), storeClamp_of_le _ (le_trans hgle hpf1),
      storeClamp_of_le _ (le_trans hble hpf1), storeClamp_of_le _ hpf1]
    exact ⟨⟨hr0, hg0, hb0, by linarith, hrle, hgle, hble, hpf1⟩,
      hr0, by linarith, hg0, by linarith, hb0, by linarith⟩
  · rw [blend_renorm _ _ _ _ _ _ _ _ hcond]
    simp only [Pix.Inv, CallInv]
    push_neg at hcond
    have hpf : 0 < pf := lt_of_le_of_ne h4 (Ne.symm hcond.1)
    have hk : 0 ≤ (1 - factor) / pf := div_nonneg (by linarith) (le_of_lt hpf)
    have hr0 : 0 ≤ min ((1 - factor) / pf * pr + factor * dr) 1 :=
      le_min (add_nonneg (mul_nonneg hk h1) (mul_nonneg (le_of_lt hf0) hdr.1)) zero_le_one
    have hg0 : 0 ≤ min ((1 - factor) / pf * pg + factor * dg) 1 :=
      le_min (add_nonneg (mul_nonneg hk h2) (mul_nonneg (le_of_lt hf0) hdg.1)) zero_le_one
    have hb0 : 0 ≤ min ((1 - factor) / pf * pb + factor * db) 1 :=
      le_min (add_nonneg (mul_nonneg hk h3) (mul_nonneg (le_of_lt hf0) hdb.1)) zero_le_one
    rw [storeClamp_of_le _ (min_le_right _ _), storeClamp_of_le _ (min_le_right _ _),
      storeClamp_of_le _ (min_le_right _ _), storeClamp_of_le _ le_rfl]
    exact ⟨⟨hr0, hg0, hb0, zero_le_one, min_le_right _ _, min_le_right _ _,
      min_le_right _ _, le_rfl⟩,
      hr0, min_le_right _ _, hg0, min_le_right _ _, hb0, min_le_right _ _⟩

theorem updateBuf_inv (b : Buf) (x y : ℤ) (p : Pix) (hb : BufInv b) (hp : p.Inv) :
    BufInv (updateBuf b x y p) := by
  intro px py
  unfold updateBuf
  split_ifs with h
  · exact hp
  · exact hb px py

/-- One cell of the general-footprint loop preserves the combined
invariant on the buffer and the Sink trace. -/
theorem setCell_inv (c : Canvas) (dxl dxr dyt dyb dr dg db : ℚ)
    (hdr : 0 ≤ dr ∧ dr ≤ 1) (hdg : 0 ≤ dg ∧ dg ≤ 1) (hdb : 0 ≤ db ∧ db ≤ 1)
    (st : Buf × List SinkCall) (hst : StInv st) (cell : ℤ × ℤ) :
    StInv (setCell c dxl dxr dyt dyb dr dg db st cell) := by
  unfold setCell
  by_cases hf : |min dxr ((cell.1 : ℚ) + 1) - max dxl (cell.1 : ℚ)| *
      |min dyb ((cell.2 : ℚ) + 1) - max dyt (cell.2 : ℚ)| ≤ 0
  · rw [if_pos hf]; exact hst
  · rw [if_neg hf]
    have harea : 0 < |min dxr ((cell.1 : ℚ) + 1) - max dxl (cell.1 : ℚ)| *
        |min dyb ((cell.2 : ℚ) + 1) - max dyt (cell.2 : ℚ)| := lt_of_not_le hf
    cases hx : wrapCoord c.xwrap c.W cell.1 with
    | none => exact hst
    | some px =>
      cases hy : wrapCoord c.ywrap c.H cell.2 with
      | none => exact hst
      | some py =>
        have hfac0 : 0 < (if 1 < |min dxr ((cell.1 : ℚ) + 1) - max dxl (cell.1 : ℚ)| *
            |min dyb ((cell.2 : ℚ) + 1) - max dyt (cell.2 : ℚ)| then 1
            else |min dxr ((cell.1 : ℚ) + 1) - max dxl (cell.1 : ℚ)| *
              |min dyb ((cell.2 : ℚ) + 1) - max dyt (cell.2 : ℚ)|) := by
          split_ifs
          · exact one_pos
          · exact harea
        have hfac1 : (if 1 < |min dxr ((cell.1 : ℚ) + 1) - max dxl (cell.1 : ℚ)| *
            |min dyb ((cell.2 : ℚ) + 1) - max dyt (cell.2 : ℚ)| then 1
            else |min dxr ((cell.1 : ℚ) + 1) - max dxl (cell.1 : ℚ)| *
              |min dyb ((cell.2 : ℚ) + 1) - max dyt (cell.2 : ℚ)|) ≤ 1 := by
          split_ifs with h
          · exact le_rfl
          · exact le_of_not_lt h
        obtain ⟨hbuf, htr⟩ := hst
        have hbl := blend_inv (st.1 px py) _ dr dg db (hbuf px py) hfac0 hfac1 hdr hdg hdb
        constructor
        · exact updateBuf_inv _ _ _ _ hbuf hbl.1
        · intro k hk
          rcases List.mem_append.mp hk with h | h
          · exact htr k h
          · rcases List.mem_singleton.mp h with rfl
            exact hbl.2

/-- Folding an invariant-preserving update over any list preserves the
combined invariant. -/
theorem foldl_preserve {α : Type} (f : Buf × List SinkCall → α → Buf × List SinkCall)
    (hf : ∀ st a, StInv st → StInv (f st a)) :
    ∀ (l : List α) (st : Buf × List SinkCall), StInv st → StInv (l.foldl f st) := by
  intro l
  induction l with
  | nil => intro st h; exact h
  | cons hd tl ih => intro st h; exact ih _ (hf st hd h)

/-- `Canvas.set` preserves the buffer invariant and only ever pushes
in-range colours to the Pixel Sink, in all three rasterization regimes. -/
theorem set_inv (c : Canvas) (x y r g b s : ℚ) (hc : BufInv c.buf) :
    StInv (c.set x y r g b s) := by
  have hdr : 0 ≤ clampChan r ∧ clampChan r ≤ 1 := ⟨clampChan_nonneg r, clampChan_le_one r⟩
  have hdg : 0 ≤ clampChan g ∧ clampChan g ≤ 1 := ⟨clampChan_nonneg g, clampChan_le_one g⟩
  have hdb : 0 ≤ clampChan b ∧ clampChan b ≤ 1 := ⟨clampChan_nonneg b, clampChan_le_one b⟩
  simp only [Canvas.set]
  split_ifs with h1 h2 h3 h4
  · exact ⟨hc, by intro k hk; simp at hk⟩
  · refine ⟨updateBuf_inv _ _ _ _ hc ?_, ?_⟩
    · exact ⟨hdr.1, hdg.1, hdb.1, zero_le_one, hdr.2, hdg.2, hdb.2, le_rfl⟩
    · intro k hk
      rcases List.mem_singleton.mp hk with rfl
      exact ⟨hdr.1, hdr.2, hdg.1, hdg.2, hdb.1, hdb.2⟩
  · have hscale : 0 < s * c.scale := lt_of_not_le h1
    have hf0 : 0 < (s * c.scale) ^ 2 := pow_pos hscale 2
    have hf1 : (s * c.scale) ^ 2 ≤ 1 :=
      le_of_lt (pow_lt_one (le_of_lt hscale) h3.1 (by norm_num))
    have hbl := blend_inv _ _ _ _ _ (hc (truncQ (x * c.scale)) (truncQ (y * c.scale)))
      hf0 hf1 hdr hdg hdb
    refine ⟨updateBuf_inv _ _ _ _ hc hbl.1, ?_⟩
    intro k hk
    rcases List.mem_singleton.mp hk with rfl
    exact hbl.2
  · exact foldl_preserve _ (fun st a hst => setCell_inv c _ _ _ _ _ _ _ hdr hdg hdb st hst a)
      _ _ ⟨hc, by intro k hk; simp at hk⟩
  · exact foldl_preserve _ (fun st a hst => setCell_inv c _ _ _ _ _ _ _ hdr hdg hdb st hst a)
      _ _ ⟨hc, by intro k hk; simp at hk⟩

/-- Appending the output of one `Canvas.set` to an invariant-satisfying
buffer/trace pair preserves the combined invariant. -/
theorem set_append_inv (c : Canvas) (st : Buf × List SinkCall) (hst : StInv st)
    (x y r g b s : ℚ) :
    StInv ((Canvas.set { c with buf := st.1 } x y r g b s).1,
      st.2 ++ (Canvas.set { c with buf := st.1 } x y r g b s).2) := by
  have hset := set_inv { c with buf := st.1 } x y r g b s hst.1
  refine ⟨hset.1, ?_⟩
  intro k hk
  rcases List.mem_append.mp hk with h | h
  · exact hst.2 k h
  · exact hset.2 k h

/-- `Canvas.set_image` preserves the buffer invariant and the Sink-call
bounds whenever it succeeds. -/
theorem setImage_inv (c : Canvas) (img : Image) (hc : BufInv c.buf) (out : Buf × List SinkCall)
    (hout : c.setImage img = .ok out) : StInv out := by
  by_cases hdim : img.w ≤ 0 ∨ img.h ≤ 0
  · rw [Canvas.setImage, if_pos hdim] at hout
    cases hout
  · rw [Canvas.setImage, if_neg hdim] at hout
    simp only [Except.ok.injEq] at hout
    subst hout
    refine foldl_preserve _ (fun st ix hst => ?_) _ _ ⟨hc, by intro k hk; simp at hk⟩
    refine foldl_preserve _ (fun st' iy hst' => ?_) _ _ hst
    exact set_append_inv c st' hst' _ _ _ _ _ _

/-- One `Op` preserves the buffer invariant and the Sink-call bounds. -/
theorem step_inv (c : Canvas) (op : Op) (hc : BufInv c.buf) :
    BufInv (c.step op).1.buf ∧ ∀ k ∈ (c.step op).2, CallInv k := by
  cases op with
  | clear =>
      refine ⟨fun px py => pix_zero_inv, ?_⟩
      intro k hk
      simp [Canvas.step] at hk
  | set x y r g b s =>
      have h := set_inv c x y r g b s hc
      exact ⟨h.1, h.2⟩
  | setImage img =>
      simp only [Canvas.step]
      cases hout : c.setImage img with
      | error e => exact ⟨hc, by intro k hk; simp at hk⟩
      | ok out =>
          have h := setImage_inv c img hc out hout
          exact ⟨h.1, h.2⟩

/-- A whole sequence of operations preserves the buffer invariant, and
every Sink call issued along the way satisfies the colour bounds. -/
theorem run_inv (c : Canvas) (ops : List Op) (hc : BufInv c.buf) :
    BufInv (Canvas.run c ops).1.buf ∧ ∀ k ∈ (Canvas.run c ops).2, CallInv k := by
  induction ops generalizing c with
  | nil => exact ⟨hc, by intro k hk; simp [Canvas.run] at hk⟩
  | cons op ops ih =>
      simp only [Canvas.run]
      have hstep := step_inv c op hc
      have hrest := ih (c.step op).1 hstep.1
      refine ⟨hrest.1, ?_⟩
      intro k hk
      rcases List.mem_append.mp hk with h | h
      · exact hstep.2 k h
      · exact hrest.2 k h

theorem zero_buf_inv : BufInv (fun _ _ => Pix.zero) := fun _ _ => pix_zero_inv

/-- Bridge from the pixel invariant to the claim-level bounds. -/
theorem pix_inv_bounds (p : Pix) (h : p.Inv) :
    (0 ≤ p.r ∧ p.r ≤ 1) ∧ (0 ≤ p.g ∧ p.g ≤ 1) ∧ (0 ≤ p.b ∧ p.b ≤ 1) ∧
      (0 ≤ p.f ∧ p.f ≤ 1) ∧ (p.f = 0 → p.r = 0 ∧ p.g = 0 ∧ p.b = 0) := by
  obtain ⟨h1, h2, h3, h4, h5, h6, h7, h8⟩ := h
  exact ⟨⟨h1, le_trans h5 h8⟩, ⟨h2, le_trans h6 h8⟩, ⟨h3, le_trans h7 h8⟩, ⟨h4, h8⟩,
    fun hf => ⟨le_antisymm (hf ▸ h5) h1, le_antisymm (hf ▸ h6) h2, le_antisymm (hf ▸ h7) h3⟩⟩

/-- C1: starting from any freshly constructed Canvas (zero-initialised
buffer, any shape/scale/wrap flags), after any sequence of
`clear`/`set`/`set_image` calls every buffer entry has its coverage and
its r, g, b channels inside `[0, 1]`, and coverage 0 forces r = g = b = 0. -/
theorem claim_C1 (W H : ℤ) (scale : ℚ) (xw yw : Bool) (ops : List Op) (px py : ℤ) :
    let p := (Canvas.run ⟨W, H, scale, xw, yw, fun _ _ => Pix.zero⟩ ops).1.buf px py
    (0 ≤ p.r ∧ p.r ≤ 1) ∧ (0 ≤ p.g ∧ p.g ≤ 1) ∧ (0 ≤ p.b ∧ p.b ≤ 1) ∧
      (0 ≤ p.f ∧ p.f ≤ 1) ∧ (p.f = 0 → p.r = 0 ∧ p.g = 0 ∧ p.b = 0) := by
  intro p
  exact pix_inv_bounds p
    ((run_inv ⟨W, H, scale, xw, yw, fun _ _ => Pix.zero⟩ ops zero_buf_inv).1 px py)

/-- C10: after any sequence of Canvas operations from a fresh Canvas,
every buffer entry has each colour channel bounded by its coverage, and
every colour value forwarded to the Pixel Sink is at most 1 even before
the store-time clamp. -/
theorem claim_C10 (W H : ℤ) (scale : ℚ) (xw yw : Bool) (ops : List Op) :
    (∀ px py : ℤ,
      let p := (Canvas.run ⟨W, H, scale, xw, yw, fun _ _ => Pix.zero⟩ ops).1.buf px py
      p.r ≤ p.f ∧ p.g ≤ p.f ∧ p.b ≤ p.f) ∧
    (∀ k ∈ (Canvas.run ⟨W, H, scale, xw, yw, fun _ _ => Pix.zero⟩ ops).2,
      k.r ≤ 1 ∧ k.g ≤ 1 ∧ k.b ≤ 1) := by
  constructor
  · intro px py
    have h := (run_inv ⟨W, H, scale, xw, yw, fun _ _ => Pix.zero⟩ ops zero_buf_inv).1 px py
    exact ⟨h.2.2.2.2.1, h.2.2.2.2.2.1, h.2.2.2.2.2.2.1⟩
  · intro k hk
    have h := (run_inv ⟨W, H, scale, xw, yw, fun _ _ => Pix.zero⟩ ops zero_buf_inv).2 k hk
    exact ⟨h.2.1, h.2.2.2.1, h.2.2.2.2.2⟩

theorem claim_C10_witness :
    (⟨0, 0, 1, 1, 1⟩ : SinkCall).r ≤ 1 ∧ (⟨0, 0, 1, 1, 1⟩ : SinkCall).g ≤ 1 ∧
      (⟨0, 0, 1, 1, 1⟩ : SinkCall).b ≤ 1 :=
  (claim_C10 4 4 1 false false [Op.set 0 0 1 1 1 1]).2 ⟨0, 0, 1, 1, 1⟩
    (by norm_num [Canvas.run, Canvas.step, Canvas.set, truncQ, clampChan])

/-- C4 (failing input): on a 4x4 grid with scale 1 and no wrapping,
`set(-0.5, 1, r=1, g=0, b=0, s=2)` has footprint
`[-2.5, -0.5] x [-1, 1]`, which is disjoint from the unit cell of physical
pixel (0, 0); yet the code paints pixel (0, 0) with blending factor 1/2
(coverage 1/2, red 1/2) and issues a Sink write for it, because the
enumeration truncates `int(-2.5) = -2` toward zero and the factor is
computed with `abs` of a negative signed overlap instead of the (empty)
intersection area. -/
theorem claim_C4_code_eval :
    ((Canvas.set ⟨4, 4, 1, false, false, fun _ _ => Pix.zero⟩ ((-1)/2) 1 1 0 0 2).1 0 0 =
      ⟨1/2, 0, 0, 1/2⟩) ∧
    ((Canvas.set ⟨4, 4, 1, false, false, fun _ _ => Pix.zero⟩ ((-1)/2) 1 1 0 0 2).2 =
      [⟨0, 0, 1/2, 0, 0⟩]) := by
  have e1 : irange (-2) (0 + 1) = [-2, -1, 0] := by decide
  have e2 : irange (-1) (1 + 1) = [-1, 0, 1] := by decide
  have e3 : irange (-2) 1 = [-2, -1, 0] := by decide
  have e4 : irange (-1) 2 = [-1, 0, 1] := by decide
  norm_num [Canvas.set, truncQ, clampChan, e1, e2, e3, e4, setCell, wrapCoord, blend,
    storeClamp, updateBuf, Pix.zero, abs_of_nonneg, abs_of_nonpos]

/-! ## Wrap/clip behaviour of an exact single-pixel draw (claim C5) -/

theorem truncQ_intCast (n : ℤ) : truncQ (n : ℚ) = n := by
  unfold truncQ
  split_ifs with h
  · rw [← Int.cast_neg, Int.floor_intCast]; ring
  · exact Int.floor_intCast n

theorem truncQ_intCast_add_one (n : ℤ) : truncQ ((n : ℚ) + 1) = n + 1 := by
  rw [show ((n : ℚ) + 1) = ((n + 1 : ℤ) : ℚ) by push_cast; ring, truncQ_intCast]

theorem irange_two (a : ℤ) : irange a (a + 1 + 1) = [a, a + 1] := by
  unfold irange
  have h2 : (a + 1 + 1 - a).toNat = 2 := by omega
  rw [h2, show List.range 2 = [0, 1] from rfl]
  simp

/-- A cell in the column to the right of a width-1 footprint has zero
overlap and is skipped. -/
theorem setCell_x0_skip (c : Canvas) (dyt dyb dr dg db : ℚ)
    (st : Buf × List SinkCall) (py : ℤ) :
    setCell c (-1) 0 dyt dyb dr dg db st (0, py) = st := by
  simp only [setCell]
  rw [if_pos (by push_cast; norm_num)]

/-- A cell in the row below a height-1 footprint has zero overlap and is
skipped. -/
theorem setCell_y_skip (c : Canvas) (dr dg db : ℚ) (st : Buf × List SinkCall)
    (px y : ℤ) :
    setCell c (-1) 0 (y : ℚ) ((y : ℚ) + 1) dr dg db st (px, y + 1) = st := by
  simp only [setCell]
  rw [if_pos ?h]
  case h =>
    push_cast
    rw [min_eq_left (show (y : ℚ) + 1 ≤ (y : ℚ) + 1 + 1 by linarith),
      max_eq_right (show (y : ℚ) ≤ (y : ℚ) + 1 by linarith)]
    norm_num

/-- Without x-wrapping, the out-of-bounds cell at x = -1 is clipped: no
state change and no Sink call. -/
theorem setCell_noxwrap_neg_one (c : Canvas) (dyt dyb dr dg db : ℚ)
    (st : Buf × List SinkCall) (py : ℤ) (hxw : c.xwrap = false) :
    setCell c (-1) 0 dyt dyb dr dg db st ((-1 : ℤ), py) = st := by
  simp only [setCell]
  have hwc : wrapCoord c.xwrap c.W (-1) = none := by
    rw [hxw]
    simp [wrapCoord]
  rw [hwc]
  split_ifs <;> rfl

/-- With x-wrapping, the cell at x = -1 of a unit footprint paints the
wrapped pixel `(-1 + W, y)` with blending factor 1. -/
theorem setCell_paint_neg_one (c : Canvas) (dr dg db : ℚ) (st : Buf × List SinkCall)
    (y : ℤ) (hxw : c.xwrap = true) (hy0 : 0 ≤ y) (hyH : y < c.H) :
    setCell c (-1) 0 (y : ℚ) ((y : ℚ) + 1) dr dg db st ((-1 : ℤ), y) =
      (updateBuf st.1 (-1 + c.W) y (blend (st.1 (-1 + c.W) y) 1 dr dg db).pix,
        st.2 ++ [⟨-1 + c.W, y, (blend (st.1 (-1 + c.W) y) 1 dr dg db).sr,
          (blend (st.1 (-1 + c.W) y) 1 dr dg db).sg,
          (blend (st.1 (-1 + c.W) y) 1 dr dg db).sb⟩]) := by
  have hny : ¬((y : ℤ) < 0 ∨ c.H ≤ y) := by
    push_neg
    exact ⟨hy0, hyH⟩
  simp only [setCell]
  norm_num [min_self, max_self, add_sub_cancel_left, wrapCoord, hxw, hny]

/-- The exact-single-pixel fast path of `Canvas.set`: at scale 1 with
integral in-bounds coordinates, the pixel is overwritten with the clamped
colour at coverage 1 and exactly one Sink call is made. -/
theorem set_exact_pixel (W H : ℤ) (xw yw : Bool) (b : Buf) (x y : ℤ) (r g bl : ℚ)
    (hx0 : 0 ≤ x) (hxW : x < W) (hy0 : 0 ≤ y) (hyH : y < H) :
    Canvas.set ⟨W, H, 1, xw, yw, b⟩ (x : ℚ) (y : ℚ) r g bl 1 =
      (updateBuf b x y ⟨clampChan r, clampChan g, clampChan bl, 1⟩,
        [⟨x, y, clampChan r, clampChan g, clampChan bl⟩]) := by
  simp only [Canvas.set]
  rw [if_neg (by norm_num), if_pos ?cond]
  case cond =>
    refine ⟨by norm_num, ?_, ?_, ?_, ?_, ?_, ?_⟩
    · rw [mul_one, truncQ_intCast]
    · rw [mul_one, truncQ_intCast]
    · rw [mul_one]; exact_mod_cast hx0
    · rw [mul_one]; exact_mod_cast hxW
    · rw [mul_one]; exact_mod_cast hy0
    · rw [mul_one]; exact_mod_cast hyH
  rw [mul_one, mul_one, truncQ_intCast, truncQ_intCast]

/-- C5: on a Canvas with scale 1 over a grid of physical width `W > 0`,
an exact single-pixel draw at x-coordinate -1 with `wrap_x = true`
produces exactly the same final buffer and the same Sink write as the
identical draw at `W - 1` (assuming the target pixel's stored state obeys
the buffer invariant, as every reachable buffer does); with
`wrap_x = false` the same draw is a complete no-op: no buffer entry
changes and no Sink call is issued. -/
theorem claim_C5 (W H y : ℤ) (yw : Bool) (b : Buf) (r g bl : ℚ)
    (hW : 0 < W) (hy0 : 0 ≤ y) (hyH : y < H) (hinv : (b (W - 1) y).Inv) :
    (Canvas.set ⟨W, H, 1, true, yw, b⟩ (-1) (y : ℚ) r g bl 1 =
      Canvas.set ⟨W, H, 1, true, yw, b⟩ ((W - 1 : ℤ) : ℚ) (y : ℚ) r g bl 1) ∧
    (Canvas.set ⟨W, H, 1, false, yw, b⟩ (-1) (y : ℚ) r g bl 1 = (b, [])) := by
  have e5 : irange (-1) (0 + 1) = [-1, 0] := by decide
  have e6 : irange (-1) 1 = [-1, 0] := by decide
  have h0 : truncQ 0 = 0 := by norm_num [truncQ]
  have h1t : truncQ 1 = 1 := by norm_num [truncQ]
  have hm1 : truncQ (-1) = -1 := by norm_num [truncQ]
  have hWW : -1 + W = W - 1 := by omega
  constructor
  · rw [set_exact_pixel W H true yw b (W - 1) y r g bl (by omega) (by omega) hy0 hyH]
    norm_num [Canvas.set, truncQ_intCast, truncQ_intCast_add_one, e5, e6, irange_two,
      h0, h1t, hm1]
    rw [setCell_paint_neg_one ⟨W, H, 1, true, yw, b⟩ (clampChan r) (clampChan g)
      (clampChan bl) (b, []) y rfl hy0 hyH]
    rw [setCell_y_skip, setCell_x0_skip, setCell_y_skip]
    simp only [hWW]
    have hb := pix_inv_bounds (b (W - 1) y) hinv
    rw [blend_factor_one (b (W - 1) y) (clampChan r) (clampChan g) (clampChan bl)
      hinv.2.2.2.1 (fun hf => hb.2.2.2.2 hf)
      (clampChan_nonneg r) (clampChan_le_one r) (clampChan_nonneg g) (clampChan_le_one g)
      (clampChan_nonneg bl) (clampChan_le_one bl)]
    simp
  · norm_num [Canvas.set, truncQ_intCast, truncQ_intCast_add_one, e5, e6, irange_two,
      h0, h1t, hm1]
    rw [setCell_noxwrap_neg_one _ _ _ _ _ _ _ _ rfl,
      setCell_noxwrap_neg_one _ _ _ _ _ _ _ _ rfl,
      setCell_x0_skip, setCell_x0_skip]

theorem claim_C5_witness :
    (Canvas.set ⟨4, 4, 1, true, false, fun _ _ => Pix.zero⟩ (-1) ((2 : ℤ) : ℚ) (1/2) 0 1 1 =
      Canvas.set ⟨4, 4, 1, true, false, fun _ _ => Pix.zero⟩ (((4 : ℤ) - 1 : ℤ) : ℚ)
        ((2 : ℤ) : ℚ) (1/2) 0 1 1) ∧
    (Canvas.set ⟨4, 4, 1, false, false, fun _ _ => Pix.zero⟩ (-1) ((2 : ℤ) : ℚ) (1/2) 0 1 1 =
      ((fun _ _ => Pix.zero : Buf), [])) :=
  claim_C5 4 4 2 false (fun _ _ => Pix.zero) (1/2) 0 1 (by norm_num) (by norm_num)
    (by norm_num) pix_zero_inv
